import Mathlib

/-!
Verification of the deterministic world/cache engine of the Smileycache
repository (grid cells, deterministic cache generation, memento persistence,
inventory transfer), shallowly embedded from `src/utils.ts` (final program
variant) and `src/world.ts`.

Modelling conventions:
* JS numbers holding integer values (cell coordinates, item serials, item
  counts) are modelled as `Int`; geographic coordinates and the values of the
  deterministic RNG are modelled as `ℚ` (exact rationals standing for the
  finite reals of the spec).
* The deterministic RNG `luck` (file `luck.ts`, which is imported by the
  sources but is not itself among them) is modelled from the spec as an
  abstract pure function `String → ℚ`: the spec treats it as a black box with
  the contract "same key ⇒ same value, forever".  Likewise the item catalog
  (`itemTypes.json`) is an arbitrary `List String`.  Both are passed as
  explicit parameters to the functions that use them.
* Mutation of a `Cache` record in place is modelled by returning the updated
  record; the module-level mutable `mementoDictionary`, `playerInventory` and
  `knownCells` maps are threaded as explicit state.  Both the memento
  dictionary and the known-cells map are association lists whose lookup
  returns the most recently inserted binding, matching JS object and `Map`
  lookup semantics.
* `JSON.stringify` / `JSON.parse` in `toMemento` / `fromMemento` are modelled
  by a concrete serializer and parser for the exact object shape the code
  stringifies (insertion-ordered fields, no whitespace, strings escaped).
  `JSON.stringify` additionally escapes control characters, which never occur
  in this program's strings; the model emits them verbatim, which does not
  change any round-trip verdict.  A thrown `SyntaxError` of `JSON.parse` is
  modelled as `Except.error`.
-/

/-- A world cell, `interface Cell { readonly i: number; readonly j: number }`. -/
structure Cell where
  i : Int
  j : Int
deriving DecidableEq

/-- An item, `interface Item { type, origin, serial }`. -/
structure Item where
  type : String
  origin : Cell
  serial : Int
deriving DecidableEq

/-- A cache, `interface Cache { location, numItems, inventory }`. -/
structure Cache where
  location : Cell
  numItems : Int
  inventory : List Item
deriving DecidableEq

/-- Little-endian decimal digit values of a natural number, computed with
explicit fuel so that the definition is structurally recursive and reduces
inside the kernel.  `fuel ≥ n` always suffices. -/
def natDigitsLE : Nat → Nat → List Nat
  | 0, _ => []
  | fuel + 1, n => if n = 0 then [] else n % 10 :: natDigitsLE fuel (n / 10)

/-- Big-endian decimal digit characters of a natural number, as produced by
JavaScript `Number.prototype.toString` for nonnegative integers. -/
def natToDigitChars (n : Nat) : List Char :=
  if n = 0 then ['0']
  else (natDigitsLE (n + 1) n).reverse.map fun d => Char.ofNat (48 + d)

/-- Decimal character rendering of an integer, as produced by JavaScript
`Number.prototype.toString` for integer-valued numbers. -/
def intToChars (n : Int) : List Char :=
  if n < 0 then '-' :: natToDigitChars n.natAbs
  else natToDigitChars n.toNat

/-- JavaScript `n.toString()` for an integer-valued number. -/
def jsNumToString (n : Int) : String :=
  ⟨intToChars n⟩

/-- `MAX_CACHE_ITEMS` from `utils.ts`. -/
def MAX_CACHE_ITEMS : Int := 10

/-- The RNG key `[cell.i, cell.j, "initialValue"].toString()` used by
`setRandomNumItems`: JS `Array.prototype.toString` joins the rendered
elements with commas. -/
def luckKeyInitial (cell : Cell) : String :=
  jsNumToString cell.i ++ "," ++ jsNumToString cell.j ++ ",initialValue"

/-- The RNG key `[cell.i, cell.j, serialNum].toString()` used by
`getRandomItemType`. -/
def luckKeySerial (cell : Cell) (serialNum : Nat) : String :=
  jsNumToString cell.i ++ "," ++ jsNumToString cell.j ++ ","
    ++ jsNumToString serialNum

/-- `createCache` from `utils.ts`: a cache at the given cell with zero items
and an empty inventory. -/
def createCache (cell : Cell) : Cache :=
  { location := cell, numItems := 0, inventory := [] }

/-- `setRandomNumItems` from `utils.ts`:
`cache.numItems = Math.floor(luck(key) * MAX_CACHE_ITEMS)`. -/
def setRandomNumItems (lf : String → ℚ) (cache : Cache) : Cache :=
  { cache with
    numItems := (lf (luckKeyInitial cache.location) * (MAX_CACHE_ITEMS : ℚ)).floor }

/-- `getRandomItemType` from `utils.ts`:
`ITEM_TYPES[Math.floor(luck(key) * ITEM_TYPES.length)]`.  Out-of-range
indexing (possible only if the RNG leaves [0,1) or the catalog is empty)
yields `undefined` in JS and the default `""` here. -/
def getRandomItemType (lf : String → ℚ) (itemTypes : List String)
    (cell : Cell) (serialNum : Nat) : String :=
  itemTypes.getD (lf (luckKeySerial cell serialNum) * (itemTypes.length : ℚ)).floor.toNat ""

/-- `fillCache` from `utils.ts`: roll the item count, then push
`Item {type: getRandomItemType(location, i), origin: location, serial: i}`
for each local index `i` in `[0, numItems)`. -/
def fillCache (lf : String → ℚ) (itemTypes : List String) (cache : Cache) : Cache :=
  let c := setRandomNumItems lf cache
  { c with
    inventory := c.inventory ++ (List.range c.numItems.toNat).map fun i =>
      { type := getRandomItemType lf itemTypes c.location i
        origin := c.location
        serial := (i : Int) } }

/-- JSON string escaping as performed by `JSON.stringify`: quote and
backslash are escaped with a backslash (control-character escapes are not
modelled, see the header comment). -/
def escapeChars : List Char → List Char
  | [] => []
  | c :: cs =>
    if c = '"' || c = '\\' then '\\' :: c :: escapeChars cs
    else c :: escapeChars cs

/-- A JSON string literal: quote, escaped contents, quote. -/
def encodeStringChars (s : String) : List Char :=
  '"' :: escapeChars s.data ++ ['"']

/-- Literal chunk opening the serialized cell object. -/
def litI : List Char := "\x7b\"i\":".data

/-- Literal chunk between the two cell coordinates. -/
def litJ : List Char := ",\"j\":".data

/-- Literal chunk opening the serialized item object. -/
def litType : List Char := "\x7b\"type\":".data

/-- Literal chunk before an item's origin cell. -/
def litOrigin : List Char := ",\"origin\":".data

/-- Literal chunk before an item's serial number. -/
def litSerial : List Char := ",\"serial\":".data

/-- Literal chunk opening the serialized cache object. -/
def litLocation : List Char := "\x7b\"location\":".data

/-- Literal chunk before the cache's numItems field. -/
def litNumItems : List Char := ",\"numItems\":".data

/-- Literal chunk before the cache's inventory field. -/
def litInventory : List Char := ",\"inventory\":".data

/-- `JSON.stringify` of a cell `{i, j}`. -/
def encodeCellChars (c : Cell) : List Char :=
  litI ++ intToChars c.i ++ litJ ++ intToChars c.j ++ ['\x7d']

/-- `JSON.stringify` of an item `{type, origin, serial}`. -/
def encodeItemChars (it : Item) : List Char :=
  litType ++ encodeStringChars it.type ++ litOrigin ++ encodeCellChars it.origin
    ++ litSerial ++ intToChars it.serial ++ ['\x7d']

/-- Comma-joined serialized items (the interior of a JSON array). -/
def encodeItemsAux : List Item → List Char
  | [] => []
  | it :: rest =>
    match rest with
    | [] => encodeItemChars it
    | _ :: _ => encodeItemChars it ++ ',' :: encodeItemsAux rest

/-- `JSON.stringify` of an item array. -/
def encodeItemsChars (l : List Item) : List Char :=
  '[' :: encodeItemsAux l ++ [']']

/-- `JSON.stringify` of a cache `{location, numItems, inventory}`, exactly
the object literal built by `toMemento` in `utils.ts`. -/
def encodeCacheChars (c : Cache) : List Char :=
  litLocation ++ encodeCellChars c.location ++ litNumItems
    ++ intToChars c.numItems ++ litInventory ++ encodeItemsChars c.inventory
    ++ ['\x7d']

/-- `toMemento` from `utils.ts`:
`JSON.stringify({location, numItems, inventory})`. -/
def toMemento (cache : Cache) : String :=
  ⟨encodeCacheChars cache⟩

/-- Numeric value of a decimal digit character. -/
def digitVal (c : Char) : Nat := c.toNat - 48

/-- Whether the input starts with a decimal digit. -/
def leadDigit : List Char → Bool
  | [] => false
  | c :: _ => c.isDigit

/-- Split the input into its maximal leading run of digit characters and the
remainder. -/
def takeDigits : List Char → List Char × List Char
  | [] => ([], [])
  | c :: cs =>
    if c.isDigit then
      let p := takeDigits cs
      (c :: p.1, p.2)
    else ([], c :: cs)

/-- Value of a little-endian list of decimal digit values. -/
def valLE : List Nat → Nat
  | [] => 0
  | d :: ds => d + 10 * valLE ds

/-- Parse a nonempty run of decimal digits as a natural number. -/
def parseNat (input : List Char) : Option (Nat × List Char) :=
  let p := takeDigits input
  if p.1 = [] then none
  else some (valLE ((p.1.map digitVal).reverse), p.2)

/-- Parse a JSON integer (optional leading minus sign, then digits). -/
def parseInt : List Char → Option (Int × List Char)
  | [] => none
  | c :: cs =>
    if c = '-' then
      match parseNat cs with
      | some (n, rest) => some (-(n : Int), rest)
      | none => none
    else
      match parseNat (c :: cs) with
      | some (n, rest) => some ((n : Int), rest)
      | none => none

/-- Consume an expected literal character sequence. -/
def parseLit : List Char → List Char → Option (List Char)
  | [], input => some input
  | _ :: _, [] => none
  | c :: cs, d :: input => if c = d then parseLit cs input else none

/-- Parse the contents of a JSON string up to and including the closing
quote, undoing backslash escapes. -/
def parseStrChars : List Char → Option (List Char × List Char)
  | [] => none
  | c :: rest =>
    if c = '"' then some ([], rest)
    else if c = '\\' then
      match rest with
      | [] => none
      | d :: rest2 =>
        match parseStrChars rest2 with
        | some (s, r) => some (d :: s, r)
        | none => none
    else
      match parseStrChars rest with
      | some (s, r) => some (c :: s, r)
      | none => none

/-- Parse a JSON string literal. -/
def parseJsonString (input : List Char) : Option (String × List Char) :=
  match input with
  | [] => none
  | c :: rest =>
    if c = '"' then
      match parseStrChars rest with
      | some (s, r) => some (⟨s⟩, r)
      | none => none
    else none

/-- Parse a serialized cell object. -/
def parseCell (input : List Char) : Option (Cell × List Char) :=
  (parseLit litI input).bind fun r1 =>
  (parseInt r1).bind fun p1 =>
  (parseLit litJ p1.2).bind fun r3 =>
  (parseInt r3).bind fun p2 =>
  (parseLit ['\x7d'] p2.2).bind fun r5 =>
  some (⟨p1.1, p2.1⟩, r5)

/-- Parse a serialized item object. -/
def parseItem (input : List Char) : Option (Item × List Char) :=
  (parseLit litType input).bind fun r1 =>
  (parseJsonString r1).bind fun p1 =>
  (parseLit litOrigin p1.2).bind fun r3 =>
  (parseCell r3).bind fun p2 =>
  (parseLit litSerial p2.2).bind fun r5 =>
  (parseInt r5).bind fun p3 =>
  (parseLit ['\x7d'] p3.2).bind fun r7 =>
  some ({ type := p1.1, origin := p2.1, serial := p3.1 }, r7)

/-- Parse the comma-separated items of a nonempty JSON array, up to and
including the closing bracket.  `fuel` bounds the number of items; any
`fuel ≥` the item count suffices. -/
def parseItemsAux : Nat → List Char → Option (List Item × List Char)
  | 0, _ => none
  | fuel + 1, input =>
    (parseItem input).bind fun p =>
    match p.2 with
    | [] => none
    | c :: r2 =>
      if c = ',' then
        (parseItemsAux fuel r2).bind fun q => some (p.1 :: q.1, q.2)
      else if c = ']' then some ([p.1], r2)
      else none

/-- Parse a JSON array of items. -/
def parseItems (fuel : Nat) (input : List Char) : Option (List Item × List Char) :=
  match input with
  | [] => none
  | c :: r =>
    if c = '[' then
      match r with
      | [] => none
      | d :: _ => if d = ']' then some ([], r.tail) else parseItemsAux fuel r
    else none

/-- Parse a serialized cache object. -/
def parseMementoChars (input : List Char) : Option (Cache × List Char) :=
  (parseLit litLocation input).bind fun r1 =>
  (parseCell r1).bind fun p1 =>
  (parseLit litNumItems p1.2).bind fun r3 =>
  (parseInt r3).bind fun p2 =>
  (parseLit litInventory p2.2).bind fun r5 =>
  (parseItems input.length r5).bind fun p3 =>
  (parseLit ['\x7d'] p3.2).bind fun r7 =>
  some (({ location := p1.1, numItems := p2.1, inventory := p3.1 } : Cache), r7)

/-- `fromMemento` from `utils.ts`: `JSON.parse` the memento and take its
`location`, `numItems` and `inventory` fields.  The source mutates the cache
passed in, overwriting all three of its fields, so the restored cache is a
function of the memento alone and is returned here; a parse failure models
the `SyntaxError` thrown by `JSON.parse` on malformed input. -/
def fromMemento (memento : String) : Option Cache :=
  match parseMementoChars memento.data with
  | some (c, []) => some c
  | _ => none

/-- Association-list lookup returning the most recently inserted binding,
matching JS object / `Map` lookup. -/
def alistLookup {α : Type} : List (String × α) → String → Option α
  | [], _ => none
  | (k, v) :: rest, key => if k = key then some v else alistLookup rest key

/-- JS `dict[key] = value`: the new binding shadows any earlier one. -/
def alistInsert {α : Type} (m : List (String × α)) (k : String) (v : α) :
    List (String × α) :=
  (k, v) :: m

/-- The memento dictionary: cell key → memento string. -/
abbrev Store := List (String × String)

/-- `getMementoKey` from `utils.ts`:
`cell.i.toString() + cell.j.toString()` — plain concatenation of the two
coordinate renderings, with no separator. -/
def getMementoKey (cell : Cell) : String :=
  jsNumToString cell.i ++ jsNumToString cell.j

/-- `getSavedCache` from `utils.ts`: if the memento dictionary holds a truthy
entry for the cell's key (a JS string is truthy iff nonempty), restore a
fresh cache from it — `fromMemento` overwrites every field of the cache that
`createCache(cell)` built — and return it; otherwise return null (modelled
`Option.none` inside `Except.ok`).  A `JSON.parse` failure propagates as an
uncaught exception, modelled as `Except.error`. -/
def getSavedCache (store : Store) (cell : Cell) : Except Unit (Option Cache) :=
  match alistLookup store (getMementoKey cell) with
  | some m =>
    if m.data = [] then Except.ok none
    else
      match fromMemento m with
      | some c => Except.ok (some c)
      | none => Except.error ()
  | none => Except.ok none

/-- `saveCacheState` from `utils.ts`:
`mementoDictionary[getMementoKey(cache.location)] = toMemento(cache)`. -/
def saveCacheState (store : Store) (cache : Cache) : Store :=
  alistInsert store (getMementoKey cache.location) (toMemento cache)

/-- `getOrCreateCache` from `utils.ts`: return the saved cache if one exists;
otherwise create a cache, fill it, save it immediately, and return it.  The
returned pair is (cache, memento dictionary afterwards). -/
def getOrCreateCache (lf : String → ℚ) (itemTypes : List String)
    (store : Store) (cell : Cell) : Except Unit (Cache × Store) :=
  match getSavedCache store cell with
  | Except.error e => Except.error e
  | Except.ok (some cache) => Except.ok (cache, store)
  | Except.ok none =>
    let cache := fillCache lf itemTypes (createCache cell)
    Except.ok (cache, saveCacheState store cache)

/-- Run `getOrCreateCache` over a list of cells in order, threading the
memento dictionary (the caches handed to the UI are discarded). -/
def runGetOrCreateAll (lf : String → ℚ) (itemTypes : List String) :
    List Cell → Store → Store
  | [], store => store
  | cell :: cells, store =>
    match getOrCreateCache lf itemTypes store cell with
    | Except.ok (_, store2) => runGetOrCreateAll lf itemTypes cells store2
    | Except.error _ => runGetOrCreateAll lf itemTypes cells store

/-- `transferItem` from `utils.ts`: if the source inventory is non-empty, pop
its last element, push it onto the destination, and return it; otherwise
return null and leave both inventories untouched.  The result triple is
(returned item or null, new source contents, new destination contents). -/
def transferItem (fromInventory toInventory : List Item) :
    Option Item × List Item × List Item :=
  match fromInventory.getLast? with
  | some item => (some item, fromInventory.dropLast, toInventory ++ [item])
  | none => (none, fromInventory, toInventory)

/-- The module-level mutable state touched by the transfer operations: the
player inventory and the memento dictionary.  (`saveGameState` additionally
mirrors this state to `localStorage`, which is outside the modelled core.) -/
structure GameState where
  playerInventory : List Item
  store : Store
deriving DecidableEq

/-- `collectItemFromCache` from `utils.ts`: transfer from the cache inventory
to the player inventory; on success save the cache state. -/
def collectItemFromCache (cache : Cache) (st : GameState) :
    Option Item × Cache × GameState :=
  let r := transferItem cache.inventory st.playerInventory
  match r.1 with
  | some item =>
    let cache2 := { cache with inventory := r.2.1 }
    (some item, cache2,
      { playerInventory := r.2.2, store := saveCacheState st.store cache2 })
  | none => (none, cache, st)

/-- `depositItemToCache` from `utils.ts`: transfer from the player inventory
to the cache inventory; on success save the cache state. -/
def depositItemToCache (cache : Cache) (st : GameState) :
    Option Item × Cache × GameState :=
  let r := transferItem st.playerInventory cache.inventory
  match r.1 with
  | some item =>
    let cache2 := { cache with inventory := r.2.2 }
    (some item, cache2,
      { playerInventory := r.2.1, store := saveCacheState st.store cache2 })
  | none => (none, cache, st)

/-- A point on the globe, `interface Geopoint { lat, lng }`, with the finite
reals modelled as rationals. -/
structure Geopoint where
  lat : ℚ
  lng : ℚ

/-- `CELL_DEGREES` from `world.ts`. -/
def CELL_DEGREES : ℚ := 1 / 10000

/-- JavaScript `Number(x.toFixed(0))`: round to the nearest integer, ties
away from zero (`toFixed` renders `-x` with a minus sign, choosing the larger
candidate on ties). -/
def jsToFixed0 (q : ℚ) : Int :=
  if q < 0 then -((-q + 1 / 2).floor) else (q + 1 / 2).floor

/-- The known-cells interning key `[i, j].toString()` from `world.ts`. -/
def cellKey (cell : Cell) : String :=
  jsNumToString cell.i ++ "," ++ jsNumToString cell.j

/-- The interning map of `world.ts`: key string → constructed cell. -/
abbrev KnownCells := List (String × Cell)

/-- `getKnownCell` from `world.ts`: construct and record the cell for this
key on first use, then return the recorded cell.  Returns the cell together
with the updated map. -/
def getKnownCell (m : KnownCells) (cell : Cell) : Cell × KnownCells :=
  let key := cellKey cell
  match alistLookup m key with
  | some c => (c, m)
  | none =>
    (⟨cell.i, cell.j⟩, alistInsert m key ⟨cell.i, cell.j⟩)

/-- `getCellForPoint` from `world.ts`:
`getKnownCell({i: Number((lat / CELL_DEGREES).toFixed(0)), j: ...})`. -/
def getCellForPoint (m : KnownCells) (point : Geopoint) : Cell × KnownCells :=
  getKnownCell m
    ⟨jsToFixed0 (point.lat / CELL_DEGREES), jsToFixed0 (point.lng / CELL_DEGREES)⟩

/-- A concrete item used to instantiate theorems with hypotheses. -/
def itemA : Item :=
  { type := "A", origin := ⟨0, 0⟩, serial := 0 }

/-- A second concrete item for witnesses. -/
def itemB : Item :=
  { type := "B", origin := ⟨0, 0⟩, serial := 1 }

/-- A concrete RNG used to instantiate theorems with hypotheses: constant
one half, within the contract range [0,1). -/
def lfHalf : String → ℚ := fun _ => 1 / 2

/-- A concrete two-entry item catalog for witnesses. -/
def typesAB : List String := ["A", "B"]

/-- A concrete cache used to instantiate theorems with hypotheses. -/
def cacheC : Cache :=
  { location := ⟨3, 4⟩, numItems := 2, inventory := [itemA, itemB] }

theorem parseLit_append (l rest : List Char) : parseLit l (l ++ rest) = some rest := by
  induction l with
  | nil => rfl
  | cons c cs ih => simpa [parseLit] using ih

theorem digitVal_ofNat (d : Nat) (hd : d < 10) :
    digitVal (Char.ofNat (48 + d)) = d := by
  interval_cases d <;> decide

theorem isDigit_ofNat (d : Nat) (hd : d < 10) :
    (Char.ofNat (48 + d)).isDigit = true := by
  interval_cases d <;> decide

theorem natDigitsLE_lt (fuel : Nat) :
    ∀ n, ∀ d ∈ natDigitsLE fuel n, d < 10 := by
  induction fuel with
  | zero => intro n d hd; simp [natDigitsLE] at hd
  | succ f ih =>
    intro n d hd
    rw [natDigitsLE] at hd
    by_cases hn : n = 0
    · simp [hn] at hd
    · rw [if_neg hn] at hd
      rcases List.mem_cons.mp hd with h | h
      · subst h; exact Nat.mod_lt _ (by omega)
      · exact ih _ d h

theorem valLE_natDigitsLE (fuel : Nat) :
    ∀ n, n ≤ fuel → valLE (natDigitsLE fuel n) = n := by
  induction fuel with
  | zero => intro n hn; interval_cases n; simp [natDigitsLE, valLE]
  | succ f ih =>
    intro n hn
    rw [natDigitsLE]
    by_cases hn0 : n = 0
    · simp [hn0, valLE]
    · rw [if_neg hn0, valLE]
      have hdiv : n / 10 ≤ f := by omega
      rw [ih _ hdiv]
      omega

theorem natDigitsLE_ne_nil (fuel n : Nat) (hf : 0 < fuel) (hn : n ≠ 0) :
    natDigitsLE fuel n ≠ [] := by
  cases fuel with
  | zero => omega
  | succ f => rw [natDigitsLE, if_neg hn]; simp

theorem natToDigitChars_digits (n : Nat) :
    ∀ c ∈ natToDigitChars n, c.isDigit = true := by
  intro c hc
  rw [natToDigitChars] at hc
  by_cases hn : n = 0
  · rw [if_pos hn] at hc
    simp at hc
    subst hc; decide
  · rw [if_neg hn] at hc
    rcases List.mem_map.mp hc with ⟨d, hd, hcd⟩
    have : d < 10 := natDigitsLE_lt _ _ d (List.mem_reverse.mp hd)
    subst hcd
    exact isDigit_ofNat d this

theorem natToDigitChars_ne_nil (n : Nat) : natToDigitChars n ≠ [] := by
  rw [natToDigitChars]
  by_cases hn : n = 0
  · simp [hn]
  · rw [if_neg hn]
    have := natDigitsLE_ne_nil (n + 1) n (by omega) hn
    simp [this]

theorem takeDigits_append (ds rest : List Char)
    (hds : ∀ c ∈ ds, c.isDigit = true) (hrest : leadDigit rest = false) :
    takeDigits (ds ++ rest) = (ds, rest) := by
  induction ds with
  | nil =>
    simp only [List.nil_append]
    cases rest with
    | nil => rfl
    | cons c cs =>
      rw [leadDigit] at hrest
      simp [takeDigits, hrest]
  | cons c cs ih =>
    have hc : c.isDigit = true := hds c (List.mem_cons_self c cs)
    have ihs := ih fun d hd => hds d (List.mem_cons_of_mem c hd)
    simp [takeDigits, hc, ihs]

theorem parseNat_append (n : Nat) (rest : List Char)
    (hrest : leadDigit rest = false) :
    parseNat (natToDigitChars n ++ rest) = some (n, rest) := by
  have htake := takeDigits_append (natToDigitChars n) rest
    (natToDigitChars_digits n) hrest
  rw [parseNat, htake]
  rw [if_neg (natToDigitChars_ne_nil n)]
  congr 1
  refine Prod.ext ?_ rfl
  show valLE (((natToDigitChars n).map digitVal).reverse) = n
  rw [natToDigitChars]
  by_cases hn : n = 0
  · simp [hn, digitVal, valLE]
  · rw [if_neg hn, List.map_map]
    have hpt : ∀ d ∈ (natDigitsLE (n + 1) n).reverse,
        (digitVal ∘ fun d => Char.ofNat (48 + d)) d = id d := by
      intro d hd
      simpa [Function.comp] using
        digitVal_ofNat d (natDigitsLE_lt _ _ d (List.mem_reverse.mp hd))
    rw [List.map_congr_left hpt, List.map_id, List.reverse_reverse]
    exact valLE_natDigitsLE (n + 1) n (by omega)

theorem parseInt_append (n : Int) (rest : List Char)
    (hrest : leadDigit rest = false) :
    parseInt (intToChars n ++ rest) = some (n, rest) := by
  rw [intToChars]
  by_cases hn : n < 0
  · rw [if_pos hn]
    rw [List.cons_append, parseInt]
    rw [if_pos rfl, parseNat_append n.natAbs rest hrest]
    show some (-(n.natAbs : Int), rest) = some (n, rest)
    have h2 : -((n.natAbs : Nat) : Int) = n := by omega
    rw [h2]
  · rw [if_neg hn]
    obtain ⟨c, cs, hcons⟩ := List.exists_cons_of_ne_nil (natToDigitChars_ne_nil n.toNat)
    have hc : c.isDigit = true := by
      refine natToDigitChars_digits n.toNat c ?_
      rw [hcons]; exact List.mem_cons_self c cs
    have hcne : ¬(c = '-') := by
      intro h; subst h; simp at hc
    rw [hcons, List.cons_append, parseInt, if_neg hcne, ← List.cons_append, ← hcons]
    rw [parseNat_append n.toNat rest hrest]
    show some ((n.toNat : Int), rest) = some (n, rest)
    have h2 : ((n.toNat : Nat) : Int) = n := by omega
    rw [h2]

theorem parseStrChars_quote (rest : List Char) :
    parseStrChars ('"' :: rest) = some ([], rest) := by
  rw [parseStrChars.eq_def]
  simp

theorem parseStrChars_esc (d : Char) (rest : List Char) :
    parseStrChars ('\\' :: d :: rest) =
      match parseStrChars rest with
      | some (s, r) => some (d :: s, r)
      | none => none := by
  rw [parseStrChars.eq_def]
  simp

theorem parseStrChars_other (c : Char) (rest : List Char)
    (h1 : c ≠ '"') (h2 : c ≠ '\\') :
    parseStrChars (c :: rest) =
      match parseStrChars rest with
      | some (s, r) => some (c :: s, r)
      | none => none := by
  rw [parseStrChars.eq_def]
  simp [h1, h2]

theorem parseStrChars_append (l rest : List Char) :
    parseStrChars (escapeChars l ++ '"' :: rest) = some (l, rest) := by
  induction l with
  | nil => simp [escapeChars, parseStrChars_quote]
  | cons c cs ih =>
    rw [escapeChars]
    by_cases hc : (c = '"' || c = '\\') = true
    · rw [if_pos hc, List.cons_append, List.cons_append, parseStrChars_esc, ih]
    · rw [if_neg hc]
      simp only [Bool.or_eq_true, decide_eq_true_eq] at hc
      push_neg at hc
      rw [List.cons_append, parseStrChars_other c _ hc.1 hc.2, ih]

theorem parseJsonString_quote (tail : List Char) :
    parseJsonString ('"' :: tail) =
      match parseStrChars tail with
      | some (s, r) => some (⟨s⟩, r)
      | none => none := by
  rw [parseJsonString]
  simp

theorem parseJsonString_append (s : String) (rest : List Char) :
    parseJsonString (encodeStringChars s ++ rest) = some (s, rest) := by
  rw [encodeStringChars]
  simp only [List.cons_append, List.append_assoc, List.singleton_append]
  rw [parseJsonString_quote, parseStrChars_append]
  rfl

theorem leadDigit_litJ (x : List Char) : leadDigit (litJ ++ x) = false := rfl

theorem leadDigit_litInventory (x : List Char) :
    leadDigit (litInventory ++ x) = false := rfl

theorem leadDigit_litSerial (x : List Char) :
    leadDigit (litSerial ++ x) = false := rfl

theorem leadDigit_close (x : List Char) :
    leadDigit ('\x7d' :: x) = false := rfl

theorem parseCell_append (c : Cell) (rest : List Char) :
    parseCell (encodeCellChars c ++ rest) = some (c, rest) := by
  rw [encodeCellChars]
  simp only [List.append_assoc, List.singleton_append]
  rw [parseCell, parseLit_append]
  rw [Option.some_bind, parseInt_append _ _ (leadDigit_litJ _)]
  rw [Option.some_bind, parseLit_append]
  rw [Option.some_bind, parseInt_append _ _ (leadDigit_close _)]
  rw [Option.some_bind]
  have h : parseLit ['\x7d'] ('\x7d' :: rest) = some rest :=
    parseLit_append ['\x7d'] rest
  rw [h, Option.some_bind]

theorem parseItem_append (it : Item) (rest : List Char) :
    parseItem (encodeItemChars it ++ rest) = some (it, rest) := by
  rw [encodeItemChars]
  simp only [List.append_assoc, List.singleton_append]
  rw [parseItem, parseLit_append]
  rw [Option.some_bind, parseJsonString_append]
  rw [Option.some_bind, parseLit_append]
  rw [Option.some_bind, parseCell_append]
  rw [Option.some_bind, parseLit_append]
  rw [Option.some_bind, parseInt_append _ _ (leadDigit_close _)]
  rw [Option.some_bind]
  have h : parseLit ['\x7d'] ('\x7d' :: rest) = some rest :=
    parseLit_append ['\x7d'] rest
  rw [h, Option.some_bind]

theorem encodeItemsAux_single (it : Item) :
    encodeItemsAux [it] = encodeItemChars it := rfl

theorem encodeItemsAux_cons2 (it it2 : Item) (tail : List Item) :
    encodeItemsAux (it :: it2 :: tail) =
      encodeItemChars it ++ ',' :: encodeItemsAux (it2 :: tail) := rfl

theorem encodeItemsAux_cons_head (it : Item) (tail : List Item) :
    ∃ t, encodeItemsAux (it :: tail) = '\x7b' :: t := by
  cases tail with
  | nil => exact ⟨_, rfl⟩
  | cons a b => exact ⟨_, rfl⟩

theorem parseItemsAux_append (l : List Item) :
    ∀ (fuel : Nat) (rest : List Char), l ≠ [] → l.length ≤ fuel →
      parseItemsAux fuel (encodeItemsAux l ++ ']' :: rest) = some (l, rest) := by
  induction l with
  | nil => intro fuel rest h _; exact absurd rfl h
  | cons it tail ih =>
    intro fuel rest _ hlen
    cases fuel with
    | zero => simp at hlen
    | succ f =>
      rw [parseItemsAux]
      cases tail with
      | nil =>
        rw [encodeItemsAux_single, parseItem_append it (']' :: rest),
          Option.some_bind]
        simp
      | cons it2 tail2 =>
        rw [encodeItemsAux_cons2, List.append_assoc, List.cons_append,
          parseItem_append it _, Option.some_bind]
        have hih := ih f rest (by simp) (by simpa using Nat.succ_le_succ_iff.mp hlen)
        simp [hih]

theorem parseItems_nil (fuel : Nat) (rest : List Char) :
    parseItems fuel ('[' :: ']' :: rest) = some ([], rest) := by
  rw [parseItems]
  simp

theorem parseItems_append (l : List Item) (fuel : Nat) (rest : List Char)
    (hlen : l.length ≤ fuel) :
    parseItems fuel (encodeItemsChars l ++ rest) = some (l, rest) := by
  rw [encodeItemsChars]
  cases l with
  | nil =>
    simpa using parseItems_nil fuel rest
  | cons it tail =>
    simp only [List.cons_append, List.append_assoc, List.singleton_append]
    obtain ⟨t, ht⟩ := encodeItemsAux_cons_head it tail
    rw [parseItems.eq_def, ht]
    simp only [List.cons_append]
    have hbr : ¬(('\x7b' : Char) = ']') := by decide
    simp only [if_pos rfl, if_neg hbr]
    rw [← List.cons_append, ← ht]
    exact parseItemsAux_append (it :: tail) fuel rest (by simp) hlen

theorem encodeItemChars_length (it : Item) : 1 ≤ (encodeItemChars it).length := by
  have h : litType.length = 8 := rfl
  simp [encodeItemChars, List.length_append, h]
  omega

theorem encodeItemsAux_length (l : List Item) :
    l.length ≤ (encodeItemsAux l).length := by
  induction l with
  | nil => simp [encodeItemsAux]
  | cons it tail ih =>
    cases tail with
    | nil =>
      rw [encodeItemsAux_single]
      have := encodeItemChars_length it
      simpa using this
    | cons a b =>
      rw [encodeItemsAux_cons2]
      have h1 := encodeItemChars_length it
      simp only [List.length_append, List.length_cons]
      simp only [List.length_cons] at ih
      omega

theorem encodeCacheChars_inv_length (c : Cache) :
    c.inventory.length ≤ (encodeCacheChars c).length := by
  have h1 := encodeItemsAux_length c.inventory
  simp [encodeCacheChars, encodeItemsChars, List.length_append]
  omega

theorem parseMemento_append (c : Cache) :
    parseMementoChars (encodeCacheChars c) = some (c, []) := by
  have hfuel := encodeCacheChars_inv_length c
  rw [parseMementoChars]
  generalize hF : (encodeCacheChars c).length = F
  rw [hF] at hfuel
  rw [encodeCacheChars]
  simp only [List.append_assoc]
  rw [parseLit_append, Option.some_bind, parseCell_append, Option.some_bind,
    parseLit_append, Option.some_bind,
    parseInt_append _ _ (leadDigit_litInventory _), Option.some_bind,
    parseLit_append, Option.some_bind, parseItems_append _ _ _ hfuel,
    Option.some_bind]
  have h : parseLit ['\x7d'] ['\x7d'] = some [] := rfl
  rw [h, Option.some_bind]

theorem fromMemento_toMemento (c : Cache) :
    fromMemento (toMemento c) = some c := by
  rw [fromMemento]
  show (match parseMementoChars (encodeCacheChars c) with
    | some (cc, []) => some cc
    | _ => none) = some c
  rw [parseMemento_append]

theorem encodeCacheChars_head (c : Cache) :
    ∃ t, encodeCacheChars c = '\x7b' :: t := ⟨_, rfl⟩

theorem toMemento_data_ne_nil (c : Cache) : (toMemento c).data ≠ [] := by
  obtain ⟨t, ht⟩ := encodeCacheChars_head c
  rw [toMemento]
  show encodeCacheChars c ≠ []
  rw [ht]
  simp

theorem alistLookup_insert_self {α : Type} (m : List (String × α)) (k : String)
    (v : α) : alistLookup (alistInsert m k v) k = some v := by
  simp [alistInsert, alistLookup]

theorem alistLookup_insert_preserve {α : Type} (m : List (String × α))
    (k key : String) (v w : α) (hm : alistLookup m key = some w)
    (hk : alistLookup m k = none) :
    alistLookup (alistInsert m k v) key = some w := by
  rw [alistInsert, alistLookup]
  by_cases hkk : k = key
  · subst hkk; rw [hm] at hk; cases hk
  · rw [if_neg hkk]; exact hm

theorem fillCache_location (lf : String → ℚ) (itemTypes : List String)
    (cell : Cell) :
    (fillCache lf itemTypes (createCache cell)).location = cell := rfl

theorem getSavedCache_save (store : Store) (cache : Cache) (cell : Cell)
    (hk : getMementoKey cell = getMementoKey cache.location) :
    getSavedCache (saveCacheState store cache) cell = Except.ok (some cache) := by
  rw [getSavedCache, hk, saveCacheState, alistLookup_insert_self]
  show (if (toMemento cache).data = [] then Except.ok none
    else match fromMemento (toMemento cache) with
      | some c => Except.ok (some c)
      | none => Except.error ()) = Except.ok (some cache)
  rw [if_neg (toMemento_data_ne_nil cache), fromMemento_toMemento]

/-- Claim C4: `transferItem` moves exactly the last item (LIFO).  If the
source inventory is non-empty it removes the most recently added (last)
item, appends it to the destination and returns it, decreasing the source
length by exactly one and increasing the destination length by exactly one;
if the source is empty it returns null and mutates neither inventory. -/
theorem transferItem_lifo (f t : List Item) :
    (∀ h : f ≠ [],
      transferItem f t =
        (some (f.getLast h), f.dropLast, t ++ [f.getLast h]) ∧
      (transferItem f t).2.1.length + 1 = f.length ∧
      (transferItem f t).2.2.length = t.length + 1) ∧
    (f = [] → transferItem f t = (none, f, t)) := by
  constructor
  · intro h
    have hlast : f.getLast? = some (f.getLast h) := List.getLast?_eq_getLast f h
    have htrans : transferItem f t =
        (some (f.getLast h), f.dropLast, t ++ [f.getLast h]) := by
      simp [transferItem, hlast]
    refine ⟨htrans, ?_, ?_⟩
    · rw [htrans]
      have hl : 0 < f.length := List.length_pos.mpr h
      simp [List.length_dropLast]
      omega
    · rw [htrans]
      simp
  · intro h
    subst h
    simp [transferItem]

/-- Witness for C4 at the concrete input `[itemA]`, `[]`. -/
theorem transferItem_lifo_witness :
    transferItem [itemA] [] = (some itemA, [], [itemA]) := by
  have h := (transferItem_lifo [itemA] []).1 (by simp)
  simpa using h.1

/-- Claim C2 (counterexample evaluation): the memento key function is not
injective.  The distinct cells (1,23) and (12,3) are both mapped to the same
key string, because the two coordinate renderings are concatenated without a
separator. -/
theorem getMementoKey_collision :
    (⟨1, 23⟩ : Cell) ≠ ⟨12, 3⟩ ∧
      getMementoKey ⟨1, 23⟩ = getMementoKey ⟨12, 3⟩ := by
  constructor
  · decide
  · rfl

/-- Claim C1: cache generation is deterministic and order-independent.  For
any RNG and item catalog, any list of previously generated cells `pre`
(starting from an empty memento dictionary) and any cell `c` with no saved
entry, generating `c` produces exactly `fillCache (createCache c)` — the same
cache, with the same saved state, as generating `c` in a fresh empty store —
whose item count is `floor(luck([i,j,"initialValue"]) * MAX_CACHE_ITEMS)` and
whose inventory is the items with types `getRandomItemType c i`, origin `c`
and serial `i` for local indices `i` in `[0, count)`. -/
theorem cacheGeneration_deterministic (lf : String → ℚ) (itemTypes : List String)
    (pre : List Cell) (c : Cell)
    (h : getSavedCache (runGetOrCreateAll lf itemTypes pre []) c = Except.ok none) :
    getOrCreateCache lf itemTypes (runGetOrCreateAll lf itemTypes pre []) c =
      Except.ok (fillCache lf itemTypes (createCache c),
        saveCacheState (runGetOrCreateAll lf itemTypes pre [])
          (fillCache lf itemTypes (createCache c))) ∧
    getOrCreateCache lf itemTypes [] c =
      Except.ok (fillCache lf itemTypes (createCache c),
        saveCacheState [] (fillCache lf itemTypes (createCache c))) ∧
    (fillCache lf itemTypes (createCache c)).numItems =
      (lf (luckKeyInitial c) * (MAX_CACHE_ITEMS : ℚ)).floor ∧
    (fillCache lf itemTypes (createCache c)).inventory =
      (List.range (fillCache lf itemTypes (createCache c)).numItems.toNat).map
        (fun i => { type := getRandomItemType lf itemTypes c i, origin := c,
                    serial := (i : Int) }) := by
  refine ⟨?_, ?_, rfl, rfl⟩
  · rw [getOrCreateCache, h]
  · rfl

/-- Witness for C1: after generating cell (0,0) from an empty store, cell
(1,1) has no saved entry and generating it yields the pure fill of a fresh
cache at (1,1). -/
theorem cacheGeneration_deterministic_witness :
    getOrCreateCache lfHalf typesAB (runGetOrCreateAll lfHalf typesAB [⟨0, 0⟩] []) ⟨1, 1⟩ =
      Except.ok (fillCache lfHalf typesAB (createCache ⟨1, 1⟩),
        saveCacheState (runGetOrCreateAll lfHalf typesAB [⟨0, 0⟩] [])
          (fillCache lfHalf typesAB (createCache ⟨1, 1⟩))) :=
  (cacheGeneration_deterministic lfHalf typesAB [⟨0, 0⟩] ⟨1, 1⟩ (by rfl)).1

/-- Claim C3: memento round-trip.  For every cache — any location, numItems
and inventory, empty or non-empty — serializing with `toMemento` and
restoring the resulting string with `fromMemento` yields a cache value-equal
to the original in location, numItems and full ordered inventory (each
item's type, origin and serial preserved). -/
theorem memento_roundTrip (cache : Cache) :
    fromMemento (toMemento cache) = some cache :=
  fromMemento_toMemento cache

/-- Claim C5: `getOrCreateCache` is stable.  Whenever a call returns a cache
and an updated store (covering both the load-existing and the
create-fill-save path), an immediately following call on the resulting store
returns the very same cache and leaves the store unchanged: contents are not
re-rolled between calls. -/
theorem getOrCreateCache_stable (lf : String → ℚ) (itemTypes : List String)
    (store : Store) (cell : Cell) (r : Cache) (s1 : Store)
    (h : getOrCreateCache lf itemTypes store cell = Except.ok (r, s1)) :
    getOrCreateCache lf itemTypes s1 cell = Except.ok (r, s1) := by
  rw [getOrCreateCache] at h
  cases hg : getSavedCache store cell with
  | error e => rw [hg] at h; cases h
  | ok o =>
    cases o with
    | some cache =>
      rw [hg] at h
      simp only [Except.ok.injEq, Prod.mk.injEq] at h
      obtain ⟨hr, hs⟩ := h
      subst hr; subst hs
      rw [getOrCreateCache, hg]
    | none =>
      rw [hg] at h
      simp only [Except.ok.injEq, Prod.mk.injEq] at h
      obtain ⟨hr, hs⟩ := h
      subst hr
      have hkey : getMementoKey cell =
          getMementoKey (fillCache lf itemTypes (createCache cell)).location := by
        rw [fillCache_location]
      have hsaved := getSavedCache_save store
        (fillCache lf itemTypes (createCache cell)) cell hkey
      rw [getOrCreateCache, ← hs, hsaved]

/-- Witness for C5 at cell (0,0), empty initial store: the first call
creates, fills and saves, and the second call returns the identical cache
and store. -/
theorem getOrCreateCache_stable_witness :
    getOrCreateCache lfHalf typesAB
      (saveCacheState [] (fillCache lfHalf typesAB (createCache ⟨0, 0⟩))) ⟨0, 0⟩ =
    Except.ok (fillCache lfHalf typesAB (createCache ⟨0, 0⟩),
      saveCacheState [] (fillCache lfHalf typesAB (createCache ⟨0, 0⟩))) :=
  getOrCreateCache_stable lfHalf typesAB [] ⟨0, 0⟩ _ _ (by rfl)

/-- Claim C6 (counterexample evaluation): a malformed memento entry — here
the truncated JSON text consisting of a single opening brace, stored under
the key of cell (0,0) — makes `getSavedCache` propagate the `JSON.parse`
failure as an error instead of falling back to default/empty state for that
key. -/
theorem getSavedCache_malformed_propagates :
    getSavedCache [(getMementoKey ⟨0, 0⟩, "\x7b")] ⟨0, 0⟩ = Except.error () := by
  rfl

/-- Claim C7: cell interning.  If two points round to the same integer
coordinate pair, looking them up in sequence returns the identical
(value-equal) cell and leaves the interning map unchanged by the second
lookup; moreover the first lookup never replaces an existing entry of the
map. -/
theorem getCellForPoint_interning (m : KnownCells) (p1 p2 : Geopoint)
    (hlat : jsToFixed0 (p1.lat / CELL_DEGREES) = jsToFixed0 (p2.lat / CELL_DEGREES))
    (hlng : jsToFixed0 (p1.lng / CELL_DEGREES) = jsToFixed0 (p2.lng / CELL_DEGREES)) :
    (getCellForPoint (getCellForPoint m p1).2 p2).1 = (getCellForPoint m p1).1 ∧
    (getCellForPoint (getCellForPoint m p1).2 p2).2 = (getCellForPoint m p1).2 ∧
    (∀ k v, alistLookup m k = some v →
      alistLookup (getCellForPoint m p1).2 k = some v) := by
  simp only [getCellForPoint]
  rw [← hlat, ← hlng]
  generalize (⟨jsToFixed0 (p1.lat / CELL_DEGREES),
    jsToFixed0 (p1.lng / CELL_DEGREES)⟩ : Cell) = c0
  cases hl : alistLookup m (cellKey c0) with
  | some c =>
    simp only [getKnownCell, hl]
    exact ⟨trivial, trivial, fun k v hkv => hkv⟩
  | none =>
    simp only [getKnownCell, hl, alistLookup_insert_self]
    refine ⟨trivial, trivial, fun k v hkv => ?_⟩
    exact alistLookup_insert_preserve m (cellKey c0) k ⟨c0.i, c0.j⟩ v hkv hl

/-- Witness for C7: both lookups at the origin point over an empty map
return the same cell and the same map. -/
theorem getCellForPoint_interning_witness :
    (getCellForPoint (getCellForPoint [] ⟨0, 0⟩).2 ⟨0, 0⟩).1 =
      (getCellForPoint [] ⟨0, 0⟩).1 :=
  (getCellForPoint_interning [] ⟨0, 0⟩ ⟨0, 0⟩ rfl rfl).1

/-- Claim C8: collect changes only the inventory.  A successful
`collectItemFromCache` returns the last inventory item, leaves `numItems`
and `location` untouched (the count keeps the original generation roll),
drops exactly the last inventory element, and the memento it saves restores
— on reload via `getSavedCache` — a cache with the original `numItems` and
the one-shorter inventory. -/
theorem collect_frame (cache : Cache) (st : GameState) (h : cache.inventory ≠ []) :
    (collectItemFromCache cache st).1 = some (cache.inventory.getLast h) ∧
    (collectItemFromCache cache st).2.1.numItems = cache.numItems ∧
    (collectItemFromCache cache st).2.1.location = cache.location ∧
    (collectItemFromCache cache st).2.1.inventory = cache.inventory.dropLast ∧
    getSavedCache (collectItemFromCache cache st).2.2.store cache.location =
      Except.ok (some
        ⟨cache.location, cache.numItems, cache.inventory.dropLast⟩) := by
  have hlast : cache.inventory.getLast? = some (cache.inventory.getLast h) :=
    List.getLast?_eq_getLast _ h
  have htrans : transferItem cache.inventory st.playerInventory =
      (some (cache.inventory.getLast h), cache.inventory.dropLast,
        st.playerInventory ++ [cache.inventory.getLast h]) := by
    simp [transferItem, hlast]
  simp only [collectItemFromCache, htrans]
  refine ⟨trivial, trivial, trivial, trivial, ?_⟩
  exact getSavedCache_save st.store _ cache.location rfl

/-- Witness for C8: collecting from the concrete two-item cache and
reloading its saved state yields the original numItems with the one-shorter
inventory. -/
theorem collect_frame_witness :
    getSavedCache (collectItemFromCache cacheC ⟨[], []⟩).2.2.store cacheC.location =
      Except.ok (some
        ⟨cacheC.location, cacheC.numItems, cacheC.inventory.dropLast⟩) :=
  (collect_frame cacheC ⟨[], []⟩ (by simp [cacheC])).2.2.2.2

/-- Claim C9: `getSavedCache` returns exactly the stored memento's contents.
If the store holds, under the key of cell `c`, the serialization of an
arbitrary cache `c2`, then `getSavedCache store c` returns `c2` itself —
location, numItems and inventory all come from the memento, and `c` is used
only to compute the lookup key, so the result's location is `c2.location`,
not necessarily `c`. -/
theorem getSavedCache_reads_memento (store : Store) (c : Cell) (c2 : Cache)
    (h : alistLookup store (getMementoKey c) = some (toMemento c2)) :
    getSavedCache store c = Except.ok (some c2) := by
  rw [getSavedCache, h]
  show (if (toMemento c2).data = [] then Except.ok none
    else match fromMemento (toMemento c2) with
      | some cc => Except.ok (some cc)
      | none => Except.error ()) = Except.ok (some c2)
  rw [if_neg (toMemento_data_ne_nil c2), fromMemento_toMemento]

/-- Witness for C9: the memento of the cache at (3,4) stored under the key
of cell (1,2) is returned as-is, location (3,4) included. -/
theorem getSavedCache_reads_memento_witness :
    getSavedCache [(getMementoKey ⟨1, 2⟩, toMemento cacheC)] ⟨1, 2⟩ =
      Except.ok (some cacheC) :=
  getSavedCache_reads_memento _ _ _ (by rfl)

/-- Claim C10: collect followed by deposit is the identity.  For a cache
with non-empty inventory, collecting and then depositing restores the cache
(inventory order included) and the player inventory exactly, and leaves the
memento stored under the cache's key equal to a fresh serialization of the
original cache state. -/
theorem collect_deposit_identity (cache : Cache) (st : GameState)
    (h : cache.inventory ≠ []) :
    (depositItemToCache (collectItemFromCache cache st).2.1
        (collectItemFromCache cache st).2.2).2.1 = cache ∧
    (depositItemToCache (collectItemFromCache cache st).2.1
        (collectItemFromCache cache st).2.2).2.2.playerInventory =
      st.playerInventory ∧
    alistLookup (depositItemToCache (collectItemFromCache cache st).2.1
        (collectItemFromCache cache st).2.2).2.2.store
        (getMementoKey cache.location) =
      some (toMemento cache) := by
  have hlast : cache.inventory.getLast? = some (cache.inventory.getLast h) :=
    List.getLast?_eq_getLast _ h
  have htrans : transferItem cache.inventory st.playerInventory =
      (some (cache.inventory.getLast h), cache.inventory.dropLast,
        st.playerInventory ++ [cache.inventory.getLast h]) := by
    simp [transferItem, hlast]
  have hcol : collectItemFromCache cache st =
      (some (cache.inventory.getLast h),
       { cache with inventory := cache.inventory.dropLast },
       ⟨st.playerInventory ++ [cache.inventory.getLast h],
        saveCacheState st.store
          { cache with inventory := cache.inventory.dropLast }⟩) := by
    simp [collectItemFromCache, htrans]
  rw [hcol]
  have hlast2 : (st.playerInventory ++ [cache.inventory.getLast h]).getLast? =
      some (cache.inventory.getLast h) := List.getLast?_concat _
  have htrans2 : transferItem
      (st.playerInventory ++ [cache.inventory.getLast h])
      cache.inventory.dropLast =
      (some (cache.inventory.getLast h), st.playerInventory,
        cache.inventory.dropLast ++ [cache.inventory.getLast h]) := by
    simp [transferItem, hlast2, List.dropLast_concat]
  have hinv : cache.inventory.dropLast ++ [cache.inventory.getLast h] =
      cache.inventory := List.dropLast_append_getLast h
  simp only [depositItemToCache, htrans2, hinv]
  exact ⟨trivial, trivial, by rw [saveCacheState, alistLookup_insert_self]⟩

/-- Witness for C10: collecting from the concrete two-item cache and
depositing right back restores the cache exactly. -/
theorem collect_deposit_identity_witness :
    (depositItemToCache (collectItemFromCache cacheC ⟨[], []⟩).2.1
        (collectItemFromCache cacheC ⟨[], []⟩).2.2).2.1 = cacheC :=
  (collect_deposit_identity cacheC ⟨[], []⟩ (by simp [cacheC])).1
